import Mathlib

/-!
A shallow embedding of the `rust_calculator` program (`src/main.rs`) and a
verification of its observable behaviour.

Modelling conventions:
* Rust `f64` values are modelled as exact rationals (`ℚ`).  Every arithmetic
  operation exercised here (`+`, `-`, `*`, `/` on small literals, and `powf`
  at small integer exponents) is exact in IEEE-754 double precision, so the
  rational model agrees with the program on all inputs considered.
* Rust strings are modelled as `List Char`; `ParsingError.base` keeps the
  `String` form produced by `input.to_string()`.
* The recursive functions `ParsingToken::tokenize` and `Token::new` of the
  source recurse on strictly smaller slices.  They are embedded with an
  explicit fuel argument (a standard technique keeping the definitions
  kernel-computable); the fuel supplied by the wrappers `tokenize` and
  `Token.new` strictly exceeds the length of every possible call chain, and
  the fuel-exhaustion branches are unreachable (see `TokenNewF_fuel_irrel`
  for the tree builder).
-/

attribute [local semireducible] Rat.mul Rat.add Rat.sub Rat.inv

namespace RustCalc

/-- Positional error model: `ParsingError` of the source, carrying a message
and an optional (source text, character index) pair. -/
structure ParsingError where
  error : String
  base : Option String
  index : Option Nat
deriving DecidableEq

/-- Constructor `ParsingError::indexed`. -/
def ParsingError.indexed (error : String) (base : String) (index : Nat) : ParsingError :=
  ⟨error, some base, some index⟩

/-- Constructor `ParsingError::not_indexed`. -/
def ParsingError.not_indexed (error : String) : ParsingError :=
  ⟨error, none, none⟩

/-- The operator catalog: enum `Operator` of the source. -/
inductive Operator where
  | Add
  | Subtract
  | Multiply
  | Divide
  | Pow
  | Inverse
deriving DecidableEq

/-- `Operator::count`: the number of arguments the operator takes (`i32` in
the source, modelled as `Int`). -/
def Operator.count : Operator → Int
  | .Add | .Subtract | .Multiply | .Divide | .Pow => 2
  | .Inverse => 1

/-- `Operator::priority`: the precedence rank (`i32`, modelled as `Int`). -/
def Operator.priority : Operator → Int
  | .Add | .Subtract => 1
  | .Multiply | .Divide => 2
  | .Pow => 3
  | .Inverse => 4

/-- The `Display` glyph of an operator (`impl Display for Operator`). -/
def Operator.render : Operator → String
  | .Add => "+"
  | .Subtract => "-"
  | .Multiply => "*"
  | .Divide => "/"
  | .Pow => "^"
  | .Inverse => "-"

/-- Lexical tokens: enum `ParsingToken` of the source.  `Parenthesis` holds
the recursively tokenized content of one parenthesized group. -/
inductive ParsingToken where
  | Number : ℚ → ParsingToken
  | Operator : Operator → ParsingToken
  | Parenthesis : List ParsingToken → ParsingToken

/-- Numeric value of a digit string, most significant digit first.  This is
the value `str::parse::<f64>` assigns to a string of decimal digits
(exactly, in the rational model). -/
def digitsToNat (s : List Char) : Nat :=
  s.foldl (fun n c => 10 * n + (c.toNat - 48)) 0

/-- Value of the string `int_part ++ "." ++ float_part` as parsed by
`parse::<f64>`, in the exact rational model. -/
def ratOfDigits (int_part float_part : List Char) : ℚ :=
  (digitsToNat int_part : ℚ) + (digitsToNat float_part : ℚ) / ((10 ^ float_part.length : ℕ) : ℚ)

/-- `ParsingToken::build_number`: concatenates the integer buffer, a literal
`'.'` and the fractional buffer and parses the result as a float.  In the
source the buffers can only contain decimal digits; on that domain
`parse::<f64>` succeeds iff at least one digit is present ("." fails,
"3." and "0.5" succeed), which is what the guard below checks. -/
def build_number (int_part float_part : List Char) : Except String ℚ :=
  if int_part.all Char.isDigit && float_part.all Char.isDigit
      && !(int_part.isEmpty && float_part.isEmpty) then
    .ok (ratOfDigits int_part float_part)
  else
    .error "Invalid number"

/-- The mutable scanning state of `ParsingToken::tokenize` (the local
variables of the source function). -/
structure LexState where
  tokens : List ParsingToken
  is_float : Bool
  is_parsing_parentesis : Bool
  current_number : List Char
  current_float : List Char
  parenthesis_depth : Int
  parenthesis_start : Nat

/-- Does `tokens.last()` match `ParsingToken::Parenthesis(_)`? -/
def lastIsParenthesis (tokens : List ParsingToken) : Bool :=
  match tokens.getLast? with
  | some (ParsingToken.Parenthesis _) => true
  | _ => false

/-- The `compute_number` closure of `tokenize`: flush the pending number
buffers into a `Number` token.  A no-op when the most recent token is a
`Parenthesis`; an indexed `Invalid number` error when the buffers do not
form a parsable number. -/
def compute_number (input : List Char) (st : LexState) (index : Nat) :
    Except ParsingError LexState :=
  if lastIsParenthesis st.tokens then
    .ok st
  else
    match build_number st.current_number st.current_float with
    | .error e => .error (ParsingError.indexed e (String.mk input) index)
    | .ok n =>
      .ok { st with tokens := st.tokens ++ [ParsingToken.Number n],
                    current_number := [], current_float := [], is_float := false }

/-- One left-to-right scan of `tokenize`, processing `rest` (the suffix of
`input` starting at character index `i`).  `tk` is the tokenizer used for
the recursive call on the slice between an outermost parenthesis pair
(`&input[parenthesis_start + 1..i]` in the source). -/
def goLex (tk : List Char → Except ParsingError (List ParsingToken)) (input : List Char) :
    List Char → Nat → LexState → Except ParsingError (List ParsingToken)
  | [], _, st =>
    if st.parenthesis_depth ≠ 0 then
      .error (ParsingError.indexed "Parenthesis not closed" (String.mk input) (input.length - 1))
    else if !st.current_number.isEmpty then
      match build_number st.current_number st.current_float with
      | .ok n => .ok (st.tokens ++ [ParsingToken.Number n])
      | .error _ => .error (ParsingError.indexed "Invalid number" (String.mk input) input.length)
    else
      .ok st.tokens
  | c :: rest, i, st =>
    if c.isDigit then
      if st.is_parsing_parentesis then goLex tk input rest (i + 1) st
      else
        let st1 := if lastIsParenthesis st.tokens then
            { st with tokens := st.tokens ++ [ParsingToken.Operator Operator.Multiply] }
          else st
        let st2 := if st1.is_float then
            { st1 with current_float := st1.current_float ++ [c] }
          else
            { st1 with current_number := st1.current_number ++ [c] }
        goLex tk input rest (i + 1) st2
    else if c = '.' then
      if st.is_parsing_parentesis then goLex tk input rest (i + 1) st
      else if st.is_float then
        .error (ParsingError.indexed "Invalid number" (String.mk input) i)
      else
        let st1 := if st.current_number.isEmpty then
            { st with current_number := ['0'] }
          else st
        goLex tk input rest (i + 1) { st1 with is_float := true }
    else if c = '+' then
      if st.is_parsing_parentesis then goLex tk input rest (i + 1) st
      else
        match compute_number input st i with
        | .error e => .error e
        | .ok st1 =>
          goLex tk input rest (i + 1)
            { st1 with tokens := st1.tokens ++ [ParsingToken.Operator Operator.Add] }
    else if c = '-' then
      if st.is_parsing_parentesis then goLex tk input rest (i + 1) st
      else if st.current_number.isEmpty then
        goLex tk input rest (i + 1)
          { st with tokens := st.tokens ++ [ParsingToken.Operator Operator.Inverse] }
      else
        match compute_number input st i with
        | .error e => .error e
        | .ok st1 =>
          goLex tk input rest (i + 1)
            { st1 with tokens := st1.tokens ++ [ParsingToken.Operator Operator.Subtract] }
    else if c = '*' then
      if st.is_parsing_parentesis then goLex tk input rest (i + 1) st
      else
        match compute_number input st i with
        | .error e => .error e
        | .ok st1 =>
          goLex tk input rest (i + 1)
            { st1 with tokens := st1.tokens ++ [ParsingToken.Operator Operator.Multiply] }
    else if c = '/' then
      if st.is_parsing_parentesis then goLex tk input rest (i + 1) st
      else
        match compute_number input st i with
        | .error e => .error e
        | .ok st1 =>
          goLex tk input rest (i + 1)
            { st1 with tokens := st1.tokens ++ [ParsingToken.Operator Operator.Divide] }
    else if c = '^' then
      if st.is_parsing_parentesis then goLex tk input rest (i + 1) st
      else
        match compute_number input st i with
        | .error e => .error e
        | .ok st1 =>
          goLex tk input rest (i + 1)
            { st1 with tokens := st1.tokens ++ [ParsingToken.Operator Operator.Pow] }
    else if c = '(' then
      let flushed : Except ParsingError LexState :=
        if !st.current_number.isEmpty then
          match compute_number input st i with
          | .error e => .error e
          | .ok st1 =>
            .ok { st1 with tokens := st1.tokens ++ [ParsingToken.Operator Operator.Multiply] }
        else
          .ok st
      match flushed with
      | .error e => .error e
      | .ok st1 =>
        let st2 := if st1.parenthesis_depth = (0 : Int) then
            { st1 with parenthesis_start := i, is_parsing_parentesis := true }
          else st1
        goLex tk input rest (i + 1) { st2 with parenthesis_depth := st2.parenthesis_depth + 1 }
    else if c = ')' then
      let st1 : LexState := { st with parenthesis_depth := st.parenthesis_depth - 1 }
      if st1.parenthesis_depth = (0 : Int) then
        if st1.parenthesis_start + 1 = i then
          .error (ParsingError.indexed "Empty parenthesis" (String.mk input) (i - 1))
        else
          match tk ((input.take i).drop (st1.parenthesis_start + 1)) with
          | .error e => .error e
          | .ok inner =>
            goLex tk input rest (i + 1)
              { st1 with is_parsing_parentesis := false,
                         tokens := st1.tokens ++ [ParsingToken.Parenthesis inner] }
      else
        goLex tk input rest (i + 1) st1
    else if c = ' ' then
      goLex tk input rest (i + 1) st
    else
      .error (ParsingError.indexed "Invalid character" (String.mk input) i)

/-- Fueled form of `ParsingToken::tokenize`.  The fuel bounds the nesting
depth of the recursive calls on parenthesis slices; each such slice is at
least two characters shorter than its parent input, so the wrapper's fuel
`input.length + 1` can never run out. -/
def tokenizeF : Nat → List Char → Except ParsingError (List ParsingToken)
  | 0, _ => .error (ParsingError.not_indexed "tokenize fuel exhausted (unreachable)")
  | f + 1, input => goLex (tokenizeF f) input input 0 ⟨[], false, false, [], [], 0, 0⟩

/-- `ParsingToken::tokenize` of the source. -/
def tokenize (input : List Char) : Except ParsingError (List ParsingToken) :=
  tokenizeF (input.length + 1) input


/-- Natural-number power on rationals, written out so that it computes by
kernel reduction. -/
def qpow (a : ℚ) : Nat → ℚ
  | 0 => 1
  | n + 1 => a * qpow a n

/-- Model of `f64::powf` (used by the `pow` operation).  On arguments whose
exponent is an integer of moderate size `powf` is exact, and this rational
model coincides with it.  Outside that domain (fractional exponents, or a
zero base with a negative exponent) `powf` produces IEEE-754 NaN/∞, which
have no rational counterpart; the model returns `0` there.  No behaviour
verified below exercises that corner. -/
def powf (a b : ℚ) : ℚ :=
  if b.den = 1 then
    if 0 ≤ b.num then qpow a b.num.toNat else (qpow a (-b.num).toNat)⁻¹
  else 0

/-- Operation registry entry: struct `Function` of the source.
`arguments_count` is an `i32`, modelled as `Int`. -/
structure Function where
  signature : String
  arguments_count : Int
  function : List ℚ → ℚ

/-- `Function::call`: checks the arity and applies the implementation.  The
error message mirrors the source `format!` string. -/
def Function.call (f : Function) (arguments : List ℚ) : Except String ℚ :=
  if (arguments.length : Int) ≠ f.arguments_count then
    .error ("Invalid number of arguments for function " ++ f.signature ++ ", expected "
      ++ toString f.arguments_count ++ ", found " ++ toString arguments.length)
  else
    .ok (f.function arguments)

/-- `Function::add`.  The Rust closure indexes `arguments[0]`/`arguments[1]`;
that indexing is guarded by the arity check in `call`, so the `getD`
defaults are never exercised.  The same convention is used for the other
operations below. -/
def Function.add : Function :=
  ⟨"add", 2, fun arguments => arguments.getD 0 0 + arguments.getD 1 0⟩

/-- `Function::subtract`. -/
def Function.subtract : Function :=
  ⟨"sub", 2, fun arguments => arguments.getD 0 0 - arguments.getD 1 0⟩

/-- `Function::multiply`. -/
def Function.multiply : Function :=
  ⟨"mul", 2, fun arguments => arguments.getD 0 0 * arguments.getD 1 0⟩

/-- `Function::divide`.  Division by zero yields IEEE ∞ in Rust and `0` in
the rational model; no behaviour verified below divides by zero. -/
def Function.divide : Function :=
  ⟨"div", 2, fun arguments => arguments.getD 0 0 / arguments.getD 1 0⟩

/-- `Function::inverse` (unary negation, signature `inv`). -/
def Function.inverse : Function :=
  ⟨"inv", 1, fun arguments => -(arguments.getD 0 0)⟩

/-- `Function::pow` (`powf`). -/
def Function.pow : Function :=
  ⟨"pow", 2, fun arguments => powf (arguments.getD 0 0) (arguments.getD 1 0)⟩

/-- `Function::from_operator`: the total mapping from operator kind to its
registry entry. -/
def Function.from_operator : Operator → Function
  | Operator.Add => Function.add
  | Operator.Subtract => Function.subtract
  | Operator.Multiply => Function.multiply
  | Operator.Divide => Function.divide
  | Operator.Pow => Function.pow
  | Operator.Inverse => Function.inverse

/-- Expression tree: enum `Token` of the source (`Operator` nodes carry the
resolved registry entry and the ordered operand subtrees). -/
inductive Token where
  | Operator : Function → List Token → Token
  | Number : ℚ → Token

/-- The scan of `Token::new` that locates the splitting operator: walk the
token sequence left to right keeping the operator of lowest priority seen
so far, updating only on a strict decrease (`<`, not `<=`), so on a tie the
leftmost occurrence is kept.  The accumulator carries the priority, the
index, and the operator itself (the source keeps the priority and the index
and re-reads `input[lowest_priority_index]`, which is exactly the operator
stored here; the source's defensive re-match with its dead
`expected operator` arm is thereby discharged). -/
def scanLowest : List ParsingToken → Nat → Option (Int × Nat × Operator) →
    Option (Int × Nat × Operator)
  | [], _, acc => acc
  | t :: ts, i, acc =>
    let acc1 := match t with
      | ParsingToken.Operator o =>
        match acc with
        | none => some (o.priority, i, o)
        | some (p, j, o0) =>
          if o.priority < p then some (o.priority, i, o) else some (p, j, o0)
      | _ => acc
    scanLowest ts (i + 1) acc1

/-- The lowest-priority (leftmost on ties) operator of a token sequence,
with its priority and index; `none` when the sequence holds no operator. -/
def lowestOp (l : List ParsingToken) : Option (Int × Nat × Operator) :=
  scanLowest l 0 none

/-- Total size of a token forest (every token counts 1, parenthesis groups
additionally count their children).  Used as the fuel bound for the tree
builder: every recursive call of `Token::new` strictly decreases it. -/
def ParsingToken.sizeList : List ParsingToken → Nat
  | [] => 0
  | ParsingToken.Number _ :: ts => 1 + ParsingToken.sizeList ts
  | ParsingToken.Operator _ :: ts => 1 + ParsingToken.sizeList ts
  | ParsingToken.Parenthesis p :: ts => 1 + ParsingToken.sizeList p + ParsingToken.sizeList ts

/-- Fueled form of `Token::new`: single tokens are a `Number`, a group to
recurse into, or an error; otherwise split at the lowest-priority leftmost
operator, building one operand (tokens strictly after the split) for a
unary operator and two (strictly before / strictly after) for a binary
one. -/
def TokenNewF : Nat → List ParsingToken → Except ParsingError Token
  | 0, _ => .error (ParsingError.not_indexed "tree recursion fuel exhausted (unreachable)")
  | f + 1, input =>
    match input with
    | [ParsingToken.Number n] => .ok (Token.Number n)
    | [ParsingToken.Parenthesis p] => TokenNewF f p
    | [ParsingToken.Operator o] =>
      .error (ParsingError.not_indexed
        ("Invalid token: " ++ " " ++ o.render ++ " " ++ ", expected number"))
    | _ =>
      match lowestOp input with
      | none =>
        .error (ParsingError.not_indexed "There are many numbers in the input, expected operator")
      | some (_, idx, o) =>
        match o.count with
        | 1 =>
          match TokenNewF f (input.drop (idx + 1)) with
          | .error e => .error e
          | .ok right => .ok (Token.Operator (Function.from_operator o) [right])
        | 2 =>
          match TokenNewF f (input.take idx) with
          | .error e => .error e
          | .ok left =>
            match TokenNewF f (input.drop (idx + 1)) with
            | .error e => .error e
            | .ok right => .ok (Token.Operator (Function.from_operator o) [left, right])
        | _ =>
          .error (ParsingError.not_indexed
            ("Operator with more than 2 arguments are not supported, found " ++ toString o.count))

/-- `Token::new` of the source.  The fuel `sizeList input + 1` strictly
exceeds the length of every recursion chain (each recursive call strictly
decreases `sizeList`), so the fuel-exhaustion branch is unreachable;
`TokenNewF_fuel_irrel` below makes this precise. -/
def Token.new (input : List ParsingToken) : Except ParsingError Token :=
  TokenNewF (ParsingToken.sizeList input + 1) input

/-- Total size of an expression forest, the fuel bound for the evaluator. -/
def Token.sizeListT : List Token → Nat
  | [] => 0
  | Token.Number _ :: ts => 1 + Token.sizeListT ts
  | Token.Operator _ args :: ts => 1 + Token.sizeListT args + Token.sizeListT ts

/-- Fueled left-to-right evaluation of a list of expression trees
(`arguments.iter().map(|t| t.compute()?)` in the source): the first failing
operand aborts, otherwise the values are collected in order. -/
def computeListF : Nat → List Token → Except String (List ℚ)
  | 0, _ => .error "evaluation fuel exhausted (unreachable)"
  | _ + 1, [] => .ok []
  | f + 1, Token.Number n :: ts =>
    match computeListF f ts with
    | .error e => .error e
    | .ok vs => .ok (n :: vs)
  | f + 1, Token.Operator fn args :: ts =>
    match computeListF f args with
    | .error e => .error e
    | .ok vals =>
      match fn.call vals with
      | .error e => .error e
      | .ok v =>
        match computeListF f ts with
        | .error e => .error e
        | .ok vs => .ok (v :: vs)

/-- `Token::compute`: a `Number` evaluates to its value; an `Operator` node
evaluates its operands left to right (failures propagate) and applies the
registry entry. -/
def Token.compute (t : Token) : Except String ℚ :=
  match t with
  | Token.Number n => .ok n
  | Token.Operator fn args =>
    match computeListF (Token.sizeListT args + 1) args with
    | .error e => .error e
    | .ok vals => fn.call vals

/-- The full pipeline run by `main`: tokenize, build the tree, evaluate.
`none` abstracts every failure (the stages' error values are examined by
the stage-level theorems). -/
def pipeline (input : List Char) : Option ℚ :=
  match tokenize input with
  | .error _ => none
  | .ok tokens =>
    match Token.new tokens with
    | .error _ => none
    | .ok t =>
      match t.compute with
      | .error _ => none
      | .ok n => some n


/-- Does this lexical token match `ParsingToken::Operator(_)`? -/
def ParsingToken.isOp : ParsingToken → Bool
  | ParsingToken.Operator _ => true
  | _ => false

/-- Structural well-formedness of a built expression tree: every
application node carries exactly as many operands as its operation's
declared arity. -/
inductive Token.wf : Token → Prop where
  | num : ∀ n, Token.wf (Token.Number n)
  | app : ∀ fn args, (args.length : Int) = fn.arguments_count →
      (∀ t ∈ args, Token.wf t) → Token.wf (Token.Operator fn args)

/-- A valid decimal literal: only digits and dots, at most one dot, at
least one digit. -/
def validDecimal (d : List Char) : Bool :=
  d.all (fun c => c.isDigit || c == '.') && decide (d.count '.' ≤ 1)
    && d.any (fun c => c.isDigit)

/-- Numeric value of a decimal literal: the digits before the first dot
form the integer part, the digits after it the fractional part. -/
def decimalValue (d : List Char) : ℚ :=
  ratOfDigits (d.takeWhile (fun c => c != '.')) ((d.dropWhile (fun c => c != '.')).tail)

/-- The number the lexer will eventually flush when the pending buffers are
as in `st` and the characters of `rest` (digits and at most one dot) are
still to be scanned. -/
def scanValue (st : LexState) (rest : List Char) : ℚ :=
  if st.is_float then
    ratOfDigits st.current_number (st.current_float ++ rest)
  else
    ratOfDigits (st.current_number ++ rest.takeWhile (fun c => c != '.'))
      ((rest.dropWhile (fun c => c != '.')).tail)

/-! ### Size bookkeeping for the tree builder's fuel -/

lemma length_le_sizeList (l : List ParsingToken) : l.length ≤ ParsingToken.sizeList l := by
  induction l with
  | nil => simp [ParsingToken.sizeList]
  | cons t ts ih => cases t <;> simp [ParsingToken.sizeList] <;> omega

lemma sizeList_append (l1 l2 : List ParsingToken) :
    ParsingToken.sizeList (l1 ++ l2) = ParsingToken.sizeList l1 + ParsingToken.sizeList l2 := by
  induction l1 with
  | nil => simp [ParsingToken.sizeList]
  | cons t ts ih => cases t <;> simp [ParsingToken.sizeList, ih] <;> omega

lemma sizeList_take_lt (l : List ParsingToken) (i : Nat) (h : i < l.length) :
    ParsingToken.sizeList (l.take i) < ParsingToken.sizeList l := by
  have hsplit : ParsingToken.sizeList (l.take i) + ParsingToken.sizeList (l.drop i)
      = ParsingToken.sizeList l := by
    rw [← sizeList_append, List.take_append_drop]
  have hlen : 1 ≤ (l.drop i).length := by
    rw [List.length_drop]
    omega
  have := length_le_sizeList (l.drop i)
  omega

lemma sizeList_drop_lt (l : List ParsingToken) (i : Nat) (h : i < l.length) :
    ParsingToken.sizeList (l.drop (i + 1)) < ParsingToken.sizeList l := by
  have hsplit : ParsingToken.sizeList (l.take (i + 1)) + ParsingToken.sizeList (l.drop (i + 1))
      = ParsingToken.sizeList l := by
    rw [← sizeList_append, List.take_append_drop]
  have hlen : 1 ≤ (l.take (i + 1)).length := by
    rw [List.length_take]
    omega
  have := length_le_sizeList (l.take (i + 1))
  omega

lemma sizeList_paren_child (p : List ParsingToken) :
    ParsingToken.sizeList p < ParsingToken.sizeList [ParsingToken.Parenthesis p] := by
  simp [ParsingToken.sizeList]

/-! ### Facts about the splitting scan -/

lemma scanLowest_bound (l : List ParsingToken) :
    ∀ i acc p j o, scanLowest l i acc = some (p, j, o) →
      (∀ p1 j1 o1, acc = some (p1, j1, o1) → j1 < i) → j < i + l.length := by
  induction l with
  | nil =>
    intro i acc p j o h hacc
    simp [scanLowest] at h
    have := hacc p j o h
    omega
  | cons t ts ih =>
    intro i acc p j o h hacc
    simp only [scanLowest] at h
    refine Nat.lt_of_lt_of_le (ih (i + 1) _ p j o h ?_) (by simp; omega)
    intro p1 j1 o1 hacc1
    cases t with
    | Operator o2 =>
      simp only at hacc1
      cases acc with
      | none =>
        simp at hacc1
        omega
      | some a =>
        obtain ⟨pa, ja, oa⟩ := a
        have hja := hacc pa ja oa rfl
        by_cases hlt : o2.priority < pa
        · simp [hlt] at hacc1
          omega
        · simp [hlt] at hacc1
          omega
    | Number n =>
      simp only at hacc1
      have := hacc p1 j1 o1 hacc1
      omega
    | Parenthesis p2 =>
      simp only at hacc1
      have := hacc p1 j1 o1 hacc1
      omega

lemma lowestOp_lt (l : List ParsingToken) (p : Int) (i : Nat) (o : Operator)
    (h : lowestOp l = some (p, i, o)) : i < l.length := by
  have := scanLowest_bound l 0 none p i o h (by intro p1 j1 o1 h1; cases h1)
  omega

lemma scanLowest_none (l : List ParsingToken) :
    ∀ i, (∀ t ∈ l, t.isOp = false) → scanLowest l i none = none := by
  induction l with
  | nil => intro i _; rfl
  | cons t ts ih =>
    intro i hfree
    have ht : t.isOp = false := hfree t (List.mem_cons_self t ts)
    have htail : ∀ u ∈ ts, u.isOp = false :=
      fun u hu => hfree u (List.mem_cons_of_mem t hu)
    cases t with
    | Operator o => simp [ParsingToken.isOp] at ht
    | Number n =>
      simp only [scanLowest]
      exact ih (i + 1) htail
    | Parenthesis p =>
      simp only [scanLowest]
      exact ih (i + 1) htail


/-! ### Fuel adequacy for the tree builder -/

lemma TokenNewF_fuel_irrel : ∀ f1 f2 l, ParsingToken.sizeList l < f1 →
    ParsingToken.sizeList l < f2 → TokenNewF f1 l = TokenNewF f2 l := by
  intro f1
  induction f1 with
  | zero => intro f2 l h1 h2; omega
  | succ g ih =>
    intro f2 l h1 h2
    cases f2 with
    | zero => omega
    | succ g2 =>
      match l with
      | [] => rfl
      | [ParsingToken.Number n] => rfl
      | [ParsingToken.Operator o] => rfl
      | [ParsingToken.Parenthesis p] =>
        have hp : ParsingToken.sizeList p < ParsingToken.sizeList [ParsingToken.Parenthesis p] :=
          sizeList_paren_child p
        simp only [TokenNewF]
        exact ih g2 p (by omega) (by omega)
      | a :: b :: ts =>
        simp only [TokenNewF]
        cases hscan : lowestOp (a :: b :: ts) with
        | none => rfl
        | some trip =>
          obtain ⟨p, idx, o⟩ := trip
          dsimp only
          have hidx : idx < (a :: b :: ts).length := lowestOp_lt _ _ _ _ hscan
          have hdrop := sizeList_drop_lt (a :: b :: ts) idx hidx
          have htake := sizeList_take_lt (a :: b :: ts) idx hidx
          have ed : TokenNewF g ((a :: b :: ts).drop (idx + 1))
              = TokenNewF g2 ((a :: b :: ts).drop (idx + 1)) :=
            ih g2 _ (by omega) (by omega)
          have et : TokenNewF g ((a :: b :: ts).take idx)
              = TokenNewF g2 ((a :: b :: ts).take idx) :=
            ih g2 _ (by omega) (by omega)
          rw [ed, et]

/-- Any sufficient fuel computes `Token.new`. -/
lemma TokenNew_eq_of_fuel (l : List ParsingToken) (f : Nat)
    (h : ParsingToken.sizeList l < f) : Token.new l = TokenNewF f l :=
  TokenNewF_fuel_irrel (ParsingToken.sizeList l + 1) f l (by omega) h

/-! ### Well-formedness of built trees -/

lemma from_operator_count (o : Operator) :
    (Function.from_operator o).arguments_count = o.count := by
  cases o <;> rfl

lemma TokenNewF_wf : ∀ f l t, TokenNewF f l = .ok t → Token.wf t := by
  intro f
  induction f with
  | zero => intro l t h; cases h
  | succ g ih =>
    intro l t h
    match l, h with
    | [ParsingToken.Number n], h =>
      cases h
      exact Token.wf.num n
    | [ParsingToken.Parenthesis p], h =>
      exact ih p t h
    | [ParsingToken.Operator o], h => cases h
    | [], h => cases h
    | a :: b :: ts, h =>
      simp only [TokenNewF] at h
      cases hscan : lowestOp (a :: b :: ts) with
      | none =>
        rw [hscan] at h
        exact absurd h (by simp)
      | some trip =>
        obtain ⟨p, idx, o⟩ := trip
        rw [hscan] at h
        dsimp only at h
        cases o <;> simp only [Operator.count] at h <;> first
        | -- binary operators
          (cases hl : TokenNewF g ((a :: b :: ts).take idx) with
            | error e =>
              rw [hl] at h
              exact absurd h (by simp)
            | ok left =>
              rw [hl] at h
              cases hr : TokenNewF g ((a :: b :: ts).drop (idx + 1)) with
              | error e =>
                rw [hr] at h
                exact absurd h (by simp)
              | ok right =>
                rw [hr] at h
                dsimp only at h
                cases h
                refine Token.wf.app _ _ ?_ ?_
                · rw [from_operator_count]; rfl
                · intro u hu
                  simp at hu
                  rcases hu with hu | hu
                  · exact hu ▸ ih _ left hl
                  · exact hu ▸ ih _ right hr)
        | -- the unary operator
          (cases hr : TokenNewF g ((a :: b :: ts).drop (idx + 1)) with
            | error e =>
              rw [hr] at h
              exact absurd h (by simp)
            | ok right =>
              rw [hr] at h
              dsimp only at h
              cases h
              refine Token.wf.app _ _ ?_ ?_
              · rw [from_operator_count]; rfl
              · intro u hu
                simp at hu
                exact hu ▸ ih _ right hr)


/-! ### Evaluation of well-formed trees -/

lemma computeListF_ok : ∀ f l, Token.sizeListT l < f → (∀ t ∈ l, Token.wf t) →
    ∃ vs, computeListF f l = .ok vs ∧ vs.length = l.length := by
  intro f
  induction f with
  | zero => intro l h _; omega
  | succ g ih =>
    intro l hsize hwf
    match l with
    | [] => exact ⟨[], rfl, rfl⟩
    | Token.Number n :: ts =>
      have hts : Token.sizeListT ts < g := by
        simp only [Token.sizeListT] at hsize
        omega
      obtain ⟨vs, hvs, hlen⟩ := ih ts hts (fun t ht => hwf t (List.mem_cons_of_mem _ ht))
      refine ⟨n :: vs, ?_, by simp [hlen]⟩
      simp only [computeListF, hvs]
    | Token.Operator fn args :: ts =>
      have hhead := hwf _ (List.mem_cons_self (Token.Operator fn args) ts)
      cases hhead with
      | app _ _ hcount hargs =>
        have hargs_size : Token.sizeListT args < g := by
          simp only [Token.sizeListT] at hsize
          omega
        have hts : Token.sizeListT ts < g := by
          simp only [Token.sizeListT] at hsize
          omega
        obtain ⟨vals, hvals, hvals_len⟩ := ih args hargs_size hargs
        obtain ⟨vs, hvs, hlen⟩ := ih ts hts (fun t ht => hwf t (List.mem_cons_of_mem _ ht))
        have hcall : fn.call vals = .ok (fn.function vals) := by
          rw [Function.call, if_neg]
          rw [hvals_len, hcount]
          simp
        refine ⟨fn.function vals :: vs, ?_, by simp [hlen]⟩
        simp only [computeListF, hvals, hcall, hvs]

lemma compute_ok_of_wf (t : Token) (h : Token.wf t) : ∃ q, Token.compute t = .ok q := by
  cases h with
  | num n => exact ⟨n, rfl⟩
  | app fn args hcount hargs =>
    obtain ⟨vals, hvals, hvals_len⟩ :=
      computeListF_ok (Token.sizeListT args + 1) args (by omega) hargs
    refine ⟨fn.function vals, ?_⟩
    have hcall : fn.call vals = .ok (fn.function vals) := by
      rw [Function.call, if_neg]
      rw [hvals_len, hcount]
      simp
    simp only [Token.compute, hvals, hcall]


/-! ### The lexer on pure decimal literals -/

lemma digit_bne_dot (c : Char) (h : c.isDigit = true) : (c != '.') = true := by
  by_cases hc : c = '.'
  · subst hc
    simp at h
  · simp [bne_iff_ne, hc]

lemma digitsToNat_seed (cn : List Char) :
    digitsToNat (if cn.isEmpty then ['0'] else cn) = digitsToNat cn := by
  cases cn with
  | nil => rfl
  | cons c cs => rfl

lemma goLex_digits (tk : List Char → Except ParsingError (List ParsingToken))
    (input : List Char) :
    ∀ rest i st,
    st.tokens = [] →
    st.is_parsing_parentesis = false →
    st.parenthesis_depth = 0 →
    (st.is_float = false → st.current_float = []) →
    (st.is_float = true → st.current_number ≠ [] ∧ rest.count '.' = 0) →
    (∀ c ∈ st.current_number, c.isDigit = true) →
    (∀ c ∈ st.current_float, c.isDigit = true) →
    (∀ c ∈ rest, c.isDigit = true ∨ c = '.') →
    rest.count '.' ≤ 1 →
    (st.current_number ≠ [] ∨ rest ≠ []) →
    goLex tk input rest i st = .ok [ParsingToken.Number (scanValue st rest)] := by
  intro rest
  induction rest with
  | nil =>
    intro i st htok hpar hdepth hff hft hdn hdf _ _ hne
    have hcn : st.current_number ≠ [] := by
      rcases hne with h | h
      · exact h
      · exact absurd rfl h
    have hbuild : build_number st.current_number st.current_float
        = .ok (ratOfDigits st.current_number st.current_float) := by
      have h1 : st.current_number.all Char.isDigit = true :=
        List.all_eq_true.2 (fun c hc => hdn c hc)
      have h2 : st.current_float.all Char.isDigit = true :=
        List.all_eq_true.2 (fun c hc => hdf c hc)
      have h3 : st.current_number.isEmpty = false := by
        cases hcnl : st.current_number with
        | nil => exact absurd hcnl hcn
        | cons a l => rfl
      unfold build_number
      rw [h1, h2, h3]
      rfl
    simp only [goLex, hdepth, hpar, htok]
    rw [if_neg (by simp), if_pos (by simp [List.isEmpty_eq_false_iff_exists_mem.2
      (by rcases List.exists_mem_of_ne_nil _ hcn with ⟨x, hx⟩; exact ⟨x, hx⟩)])]
    rw [hbuild]
    cases hf : st.is_float with
    | true =>
      simp [scanValue, hf]
    | false =>
      have hcf : st.current_float = [] := hff hf
      simp [scanValue, hf, hcf]
  | cons c rest ih =>
    intro i st htok hpar hdepth hff hft hdn hdf hmem hcount hne
    obtain ⟨toks, isf, isp, cn, cf, dep, pstart⟩ := st
    simp only at htok hpar hdepth hff hft hdn hdf hne
    subst htok hpar hdepth
    have hmc := hmem c (List.mem_cons_self c rest)
    have hmem2 : ∀ x ∈ rest, x.isDigit = true ∨ x = '.' :=
      fun x hx => hmem x (List.mem_cons_of_mem c hx)
    by_cases hc : c.isDigit = true
    · -- a digit is appended to the float buffer in float mode, else to the
      -- number buffer
      have hcount2 : List.count '.' rest ≤ 1 := by
        rw [List.count_cons] at hcount
        omega
      have hcbne : (c != '.') = true := digit_bne_dot c hc
      cases isf with
      | true =>
        obtain ⟨hcn_ne, hcnt0⟩ := hft rfl
        have hcnt0r : List.count '.' rest = 0 := by
          rw [List.count_cons] at hcnt0
          omega
        have step := ih (i + 1) ⟨[], true, false, cn, cf ++ [c], 0, pstart⟩
          rfl rfl rfl
          (by intro h; cases h)
          (by intro _; exact ⟨hcn_ne, hcnt0r⟩)
          hdn
          (by intro x hx
              rcases List.mem_append.1 hx with hx | hx
              · exact hdf x hx
              · rw [List.mem_singleton.1 hx]; exact hc)
          hmem2 hcount2 (Or.inl hcn_ne)
        rw [show goLex tk input (c :: rest) i ⟨[], true, false, cn, cf, 0, pstart⟩
            = goLex tk input rest (i + 1) ⟨[], true, false, cn, cf ++ [c], 0, pstart⟩ by
          simp only [goLex, hc]
          rfl]
        rw [step]
        have hval : scanValue ⟨[], true, false, cn, cf, 0, pstart⟩ (c :: rest)
            = scanValue ⟨[], true, false, cn, cf ++ [c], 0, pstart⟩ rest := by
          simp [scanValue, List.append_assoc]
        rw [hval]
      | false =>
        have hcf : cf = [] := hff rfl
        have step := ih (i + 1) ⟨[], false, false, cn ++ [c], cf, 0, pstart⟩
          rfl rfl rfl
          (by intro _; exact hcf)
          (by intro h; cases h)
          (by intro x hx
              rcases List.mem_append.1 hx with hx | hx
              · exact hdn x hx
              · rw [List.mem_singleton.1 hx]; exact hc)
          hdf hmem2 hcount2
          (Or.inl (by simp))
        rw [show goLex tk input (c :: rest) i ⟨[], false, false, cn, cf, 0, pstart⟩
            = goLex tk input rest (i + 1) ⟨[], false, false, cn ++ [c], cf, 0, pstart⟩ by
          simp only [goLex, hc]
          rfl]
        rw [step]
        have hval : scanValue ⟨[], false, false, cn, cf, 0, pstart⟩ (c :: rest)
            = scanValue ⟨[], false, false, cn ++ [c], cf, 0, pstart⟩ rest := by
          simp only [scanValue, Bool.false_eq_true, reduceIte, List.takeWhile_cons, hcbne,
            List.dropWhile_cons, List.append_assoc, List.singleton_append]
        rw [hval]
    · -- the character is a dot: float mode is entered, seeding an empty
      -- integer buffer with a zero digit
      have hcdot : c = '.' := by
        rcases hmc with h | h
        · exact absurd h hc
        · exact h
      subst hcdot
      have hcnt0r : List.count '.' rest = 0 := by
        rw [List.count_cons] at hcount
        simp at hcount
        omega
      cases isf with
      | true =>
        obtain ⟨_, hcnt0⟩ := hft rfl
        rw [List.count_cons] at hcnt0
        simp at hcnt0
      | false =>
        have hcf : cf = [] := hff rfl
        cases hcn_nil : cn with
        | nil =>
          have step := ih (i + 1) ⟨[], true, false, ['0'], cf, 0, pstart⟩
            rfl rfl rfl
            (by intro h; cases h)
            (by intro _; exact ⟨by simp, hcnt0r⟩)
            (by intro x hx
                rw [List.mem_singleton.1 hx]
                rfl)
            hdf hmem2 (by omega) (Or.inl (by simp))
          rw [show goLex tk input ('.' :: rest) i ⟨[], false, false, [], cf, 0, pstart⟩
              = goLex tk input rest (i + 1) ⟨[], true, false, ['0'], cf, 0, pstart⟩ from rfl]
          rw [step]
          have hval : scanValue ⟨[], false, false, [], cf, 0, pstart⟩ ('.' :: rest)
              = scanValue ⟨[], true, false, ['0'], cf, 0, pstart⟩ rest := by
            simp [scanValue, hcf, ratOfDigits, digitsToNat]
          rw [hval]
        | cons a l =>
          have step := ih (i + 1) ⟨[], true, false, a :: l, cf, 0, pstart⟩
            rfl rfl rfl
            (by intro h; cases h)
            (by intro _; exact ⟨by simp, hcnt0r⟩)
            (by intro x hx; exact hdn x (hcn_nil ▸ hx))
            hdf hmem2 (by omega) (Or.inl (by simp))
          rw [show goLex tk input ('.' :: rest) i ⟨[], false, false, a :: l, cf, 0, pstart⟩
              = goLex tk input rest (i + 1) ⟨[], true, false, a :: l, cf, 0, pstart⟩ from rfl]
          rw [step]
          have hval : scanValue ⟨[], false, false, a :: l, cf, 0, pstart⟩ ('.' :: rest)
              = scanValue ⟨[], true, false, a :: l, cf, 0, pstart⟩ rest := by
            simp [scanValue, hcf]
          rw [hval]


/-! ### Helpers for evaluating the pipeline on concrete inputs -/

lemma pipeline_eval (input : List Char) (ts : List ParsingToken) (t : Token) (v : ℚ)
    (h1 : tokenize input = .ok ts) (h2 : Token.new ts = .ok t) (h3 : t.compute = .ok v) :
    pipeline input = some v := by
  simp only [pipeline, h1, h2, h3]

lemma TokenNew_num (l : List ParsingToken) (f : Nat) (hf : ParsingToken.sizeList l = f)
    (r : Except ParsingError Token) (h : TokenNewF (f + 1) l = r) : Token.new l = r := by
  rw [Token.new, hf]
  exact h

lemma compute_eval (fn : Function) (args : List Token) (f : Nat)
    (hf : Token.sizeListT args = f) (r : Except String ℚ)
    (h : (match computeListF (f + 1) args with
          | .error e => .error e
          | .ok vals => fn.call vals) = r) :
    Token.compute (Token.Operator fn args) = r := by
  rw [Token.compute, hf]
  exact h

lemma eval_pow_chain : pipeline ("2^3^2".data) = some 512 :=
  pipeline_eval _
    [ParsingToken.Number 2, ParsingToken.Operator Operator.Pow, ParsingToken.Number 3,
      ParsingToken.Operator Operator.Pow, ParsingToken.Number 2]
    (Token.Operator Function.pow [Token.Number 2,
      Token.Operator Function.pow [Token.Number 3, Token.Number 2]])
    512 rfl
    (TokenNew_num _ 5 (by simp [ParsingToken.sizeList]) _ rfl)
    (compute_eval _ _ 4 (by simp [Token.sizeListT]) _ rfl)

lemma eval_implicit_left : pipeline ("3(4+5)".data) = some 27 :=
  pipeline_eval _
    [ParsingToken.Number 3, ParsingToken.Operator Operator.Multiply,
      ParsingToken.Parenthesis [ParsingToken.Number 4, ParsingToken.Operator Operator.Add,
        ParsingToken.Number 5]]
    (Token.Operator Function.multiply [Token.Number 3,
      Token.Operator Function.add [Token.Number 4, Token.Number 5]])
    27 rfl
    (TokenNew_num _ 6 (by simp [ParsingToken.sizeList]) _ rfl)
    (compute_eval _ _ 4 (by simp [Token.sizeListT]) _ rfl)

lemma eval_implicit_right : pipeline ("(1+2)3".data) = some 9 :=
  pipeline_eval _
    [ParsingToken.Parenthesis [ParsingToken.Number 1, ParsingToken.Operator Operator.Add,
        ParsingToken.Number 2],
      ParsingToken.Operator Operator.Multiply, ParsingToken.Number 3]
    (Token.Operator Function.multiply
      [Token.Operator Function.add [Token.Number 1, Token.Number 2], Token.Number 3])
    9 rfl
    (TokenNew_num _ 6 (by simp [ParsingToken.sizeList]) _ rfl)
    (compute_eval _ _ 4 (by simp [Token.sizeListT]) _ rfl)

lemma eval_sub_chain : pipeline ("1 - 2 - 3".data) = some 2 :=
  pipeline_eval _
    [ParsingToken.Number 1, ParsingToken.Operator Operator.Subtract, ParsingToken.Number 2,
      ParsingToken.Operator Operator.Subtract, ParsingToken.Number 3]
    (Token.Operator Function.subtract [Token.Number 1,
      Token.Operator Function.subtract [Token.Number 2, Token.Number 3]])
    2 rfl
    (TokenNew_num _ 5 (by simp [ParsingToken.sizeList]) _ rfl)
    (compute_eval _ _ 4 (by simp [Token.sizeListT]) _ rfl)

lemma eval_neg_group : pipeline ("(1+2)-3".data) = some (-3) :=
  pipeline_eval _
    [ParsingToken.Parenthesis [ParsingToken.Number 1, ParsingToken.Operator Operator.Add,
        ParsingToken.Number 2],
      ParsingToken.Operator Operator.Inverse, ParsingToken.Number 3]
    (Token.Operator Function.inverse [Token.Number 3])
    (-3) rfl
    (TokenNew_num _ 6 (by simp [ParsingToken.sizeList]) _ rfl)
    (compute_eval _ _ 1 (by simp [Token.sizeListT]) _ rfl)

lemma eval_precedence : pipeline ("1 + 2 * 3".data) = some 7 :=
  pipeline_eval _
    [ParsingToken.Number 1, ParsingToken.Operator Operator.Add, ParsingToken.Number 2,
      ParsingToken.Operator Operator.Multiply, ParsingToken.Number 3]
    (Token.Operator Function.add [Token.Number 1,
      Token.Operator Function.multiply [Token.Number 2, Token.Number 3]])
    7 rfl
    (TokenNew_num _ 5 (by simp [ParsingToken.sizeList]) _ rfl)
    (compute_eval _ _ 4 (by simp [Token.sizeListT]) _ rfl)


/-! ### The claims -/

/-- C1 (counterexample): the full pipeline on "2^3^2" does not yield 64.0:
the leftmost tie-break picks the first `^` as the split point, which makes
it the root of the tree, so the tree is `2^(3^2)`, not `(2^3)^2`. -/
theorem C1_counterexample : pipeline ("2^3^2".data) ≠ some 64 := by
  rw [eval_pow_chain]
  decide

/-- C1 (amended): the full pipeline (tokenize, then `Token::new`, then
`compute`) on the input "2^3^2" yields 512.0 = 2^(3^2): the leftmost
tie-break at rank 3 picks the first `^` as the split point, making it the
root with the remainder `3^2` as its right operand. -/
theorem C1_power_split : pipeline ("2^3^2".data) = some 512 :=
  eval_pow_chain

/-- C2 (counterexample): the full pipeline on "(1+2)3" does not yield 27.0
(it yields (1+2)*3 = 9.0). -/
theorem C2_counterexample : pipeline ("(1+2)3".data) ≠ some 27 := by
  rw [eval_implicit_right]
  decide

/-- C2 (amended): the lexer inserts an implicit `Multiply` token between a
number and a following parenthesis group ("3(4+5)") and between a
parenthesis group and a following number ("(1+2)3"); the pipeline yields
27.0 for the first input and 9.0 = (1+2)*3 for the second. -/
theorem C2_implicit_multiplication :
    tokenize ("3(4+5)".data) =
      .ok [ParsingToken.Number 3, ParsingToken.Operator Operator.Multiply,
        ParsingToken.Parenthesis [ParsingToken.Number 4, ParsingToken.Operator Operator.Add,
          ParsingToken.Number 5]] ∧
    tokenize ("(1+2)3".data) =
      .ok [ParsingToken.Parenthesis [ParsingToken.Number 1, ParsingToken.Operator Operator.Add,
          ParsingToken.Number 2],
        ParsingToken.Operator Operator.Multiply, ParsingToken.Number 3] ∧
    pipeline ("3(4+5)".data) = some 27 ∧
    pipeline ("(1+2)3".data) = some 9 :=
  ⟨rfl, rfl, eval_implicit_left, eval_implicit_right⟩

/-- C3 (counterexample): `tokenize "(   )"` does not fail: the
`Empty parenthesis` check compares the recorded start index plus one with
the closing index, so it only fires when the closing parenthesis
immediately follows the opening one; three spaces in between make the
check pass and the recursive tokenization of the spaces yields an empty
group. -/
theorem C3_counterexample : tokenize ("(   )".data) = .ok [ParsingToken.Parenthesis []] :=
  rfl

/-- C3 (amended): `tokenize "()"` fails with the indexed `Empty
parenthesis` error; `tokenize "(   )"` succeeds with a single `Parenthesis`
token with no children; `tokenize "(1+2"` fails with the indexed
`Parenthesis not closed` error. -/
theorem C3_parenthesis_errors :
    tokenize ("()".data) = .error (ParsingError.indexed "Empty parenthesis" "()" 0) ∧
    tokenize ("(   )".data) = .ok [ParsingToken.Parenthesis []] ∧
    tokenize ("(1+2".data) =
      .error (ParsingError.indexed "Parenthesis not closed" "(1+2" 3) :=
  ⟨rfl, rfl, rfl⟩

/-- C4: `tokenize "(1+2)-3"` yields a `Group`, then a unary `Negate`
(`Inverse`) operator token, then the number 3 — not a `Subtract` token —
because the minus classification keys only on the emptiness of the number
buffer, which is empty right after a closed group. -/
theorem C4_minus_after_group :
    tokenize ("(1+2)-3".data) =
      .ok [ParsingToken.Parenthesis [ParsingToken.Number 1, ParsingToken.Operator Operator.Add,
          ParsingToken.Number 2],
        ParsingToken.Operator Operator.Inverse, ParsingToken.Number 3] :=
  rfl

/-- C5: the pipeline on "1 - 2 - 3" yields 2.0: the tokens are
`1, -, 2, -, 3`, the splitting scan keeps the leftmost of the two
equal-priority `Subtract` tokens (index 1, priority 1; strict less-than
comparison), so the tree is the right-leaning `1 - (2 - 3)`. -/
theorem C5_leftmost_tie_break :
    tokenize ("1 - 2 - 3".data) =
      .ok [ParsingToken.Number 1, ParsingToken.Operator Operator.Subtract,
        ParsingToken.Number 2, ParsingToken.Operator Operator.Subtract,
        ParsingToken.Number 3] ∧
    lowestOp [ParsingToken.Number 1, ParsingToken.Operator Operator.Subtract,
        ParsingToken.Number 2, ParsingToken.Operator Operator.Subtract,
        ParsingToken.Number 3] = some (1, 1, Operator.Subtract) ∧
    pipeline ("1 - 2 - 3".data) = some 2 :=
  ⟨rfl, by decide, eval_sub_chain⟩

/-- C8: `Multiply` has precedence rank 2 and `Add` rank 1, so on
"1 + 2 * 3" the splitting scan picks the `Add` (the strictly lowest
priority) and the pipeline yields 7.0. -/
theorem C8_multiplication_binds_tighter :
    Operator.priority Operator.Multiply = 2 ∧
    Operator.priority Operator.Add = 1 ∧
    tokenize ("1 + 2 * 3".data) =
      .ok [ParsingToken.Number 1, ParsingToken.Operator Operator.Add, ParsingToken.Number 2,
        ParsingToken.Operator Operator.Multiply, ParsingToken.Number 3] ∧
    lowestOp [ParsingToken.Number 1, ParsingToken.Operator Operator.Add, ParsingToken.Number 2,
        ParsingToken.Operator Operator.Multiply, ParsingToken.Number 3]
      = some (1, 1, Operator.Add) ∧
    pipeline ("1 + 2 * 3".data) = some 7 :=
  ⟨rfl, rfl, rfl, by decide, eval_precedence⟩

/-- C10: a token sequence with more than one token and no operator token
makes `Token::new` fail with the `AmbiguousNumbers` error (the source's
"There are many numbers in the input, expected operator"). -/
theorem C10_no_operator_error : ∀ l : List ParsingToken, 1 < l.length →
    (∀ t ∈ l, t.isOp = false) →
    Token.new l = .error (ParsingError.not_indexed
      "There are many numbers in the input, expected operator") := by
  intro l hlen hfree
  match l, hlen with
  | a :: b :: ts, _ =>
    have hnone : lowestOp (a :: b :: ts) = none := scanLowest_none _ 0 hfree
    show TokenNewF (ParsingToken.sizeList (a :: b :: ts) + 1) (a :: b :: ts) = _
    simp only [TokenNewF, hnone]

/-- C10 (witness): the sequence `[1, 2]` has two tokens, no operator, and
is rejected with the `AmbiguousNumbers` error. -/
theorem C10_no_operator_error_witness :
    1 < ([ParsingToken.Number 1, ParsingToken.Number 2] : List ParsingToken).length ∧
    (∀ t ∈ ([ParsingToken.Number 1, ParsingToken.Number 2] : List ParsingToken),
      t.isOp = false) ∧
    Token.new [ParsingToken.Number 1, ParsingToken.Number 2] =
      .error (ParsingError.not_indexed
        "There are many numbers in the input, expected operator") :=
  ⟨by decide, by decide,
    C10_no_operator_error [ParsingToken.Number 1, ParsingToken.Number 2] (by decide)
      (by decide)⟩

/-- C7: every tree built by `Token::new` is well-formed — each application
node has exactly as many operands as its operation's arity — and therefore
evaluates without ever reaching the registry's arity-mismatch branch
(`compute` succeeds on it).  The arity of the registry entry always equals
the arity of the operator it was derived from: 1 for `Inverse` (Negate),
2 for every other operator. -/
theorem C7_arity_invariant :
    (∀ (input : List ParsingToken) (t : Token), Token.new input = .ok t →
      Token.wf t ∧ ∃ q, Token.compute t = .ok q) ∧
    (Function.from_operator Operator.Inverse).arguments_count = Operator.count Operator.Inverse ∧
    Operator.count Operator.Inverse = 1 ∧
    (∀ o : Operator, o ≠ Operator.Inverse → (Function.from_operator o).arguments_count = 2) := by
  refine ⟨?_, rfl, rfl, ?_⟩
  · intro input t h
    have hwf := TokenNewF_wf _ input t h
    exact ⟨hwf, compute_ok_of_wf t hwf⟩
  · intro o ho
    cases o
    · rfl
    · rfl
    · rfl
    · rfl
    · rfl
    · exact absurd rfl ho

/-- C7 (witness): the single-number sequence `[1]` builds to the literal
tree `1`, which is well-formed and evaluates. -/
theorem C7_arity_invariant_witness :
    Token.new [ParsingToken.Number 1] = .ok (Token.Number 1) ∧
    (Token.wf (Token.Number 1) ∧ ∃ q, Token.compute (Token.Number 1) = .ok q) :=
  ⟨TokenNew_num _ 1 (by simp [ParsingToken.sizeList]) _ rfl,
    C7_arity_invariant.1 [ParsingToken.Number 1] (Token.Number 1)
      (TokenNew_num _ 1 (by simp [ParsingToken.sizeList]) _ rfl)⟩

/-- C9: every valid decimal literal (digits with at most one dot and at
least one digit) tokenizes to exactly one `NumberLiteral` holding its
numeric value; in particular ".5" yields 0.5 and "3" yields 3.0 (the
number flush parses the string "3.", which is a valid float). -/
theorem C9_decimal_literal :
    (∀ d : List Char, validDecimal d = true →
      tokenize d = .ok [ParsingToken.Number (decimalValue d)]) ∧
    tokenize (".5".data) = .ok [ParsingToken.Number (1 / 2)] ∧
    tokenize ("3".data) = .ok [ParsingToken.Number 3] := by
  refine ⟨?_, rfl, rfl⟩
  intro d h
  simp only [validDecimal, Bool.and_eq_true, List.all_eq_true, List.any_eq_true,
    decide_eq_true_eq] at h
  obtain ⟨⟨hall, hcount⟩, c0, hc0mem, hc0⟩ := h
  have hne : d ≠ [] := by
    intro hnil
    rw [hnil] at hc0mem
    cases hc0mem
  have hmem : ∀ c ∈ d, c.isDigit = true ∨ c = '.' := by
    intro c hc
    have h2 := hall c hc
    simp only [Bool.or_eq_true] at h2
    rcases h2 with h | h
    · exact Or.inl h
    · exact Or.inr (by simpa using h)
  show goLex (tokenizeF d.length) d d 0 ⟨[], false, false, [], [], 0, 0⟩ = _
  rw [goLex_digits (tokenizeF d.length) d d 0 _ rfl rfl rfl (fun _ => rfl)
    (by intro h2; cases h2) (by intro c hc; cases hc) (by intro c hc; cases hc)
    hmem hcount (Or.inr hne)]
  have hv : scanValue ⟨[], false, false, [], [], 0, 0⟩ d = decimalValue d := by
    simp [scanValue, decimalValue]
  rw [hv]

/-- C9 (witness): ".5" is a valid decimal literal and tokenizes to the
single number 0.5. -/
theorem C9_decimal_literal_witness :
    validDecimal (".5".data) = true ∧
    tokenize (".5".data) = .ok [ParsingToken.Number (decimalValue (".5".data))] :=
  ⟨by decide, C9_decimal_literal.1 (".5".data) (by decide)⟩


/-- C6 (counterexample): the sequence `[1, Negate]` has length 2 and its
minimal-priority operator is the unary `Inverse` at index 1, yet
`Token::new` does not succeed on it: the tokens after the split are empty
and the recursive build fails with the `AmbiguousNumbers` error. -/
theorem C6_counterexample :
    ([ParsingToken.Number 1, ParsingToken.Operator Operator.Inverse] :
      List ParsingToken).length = 2 ∧
    lowestOp [ParsingToken.Number 1, ParsingToken.Operator Operator.Inverse]
      = some (4, 1, Operator.Inverse) ∧
    Token.new [ParsingToken.Number 1, ParsingToken.Operator Operator.Inverse]
      = .error (ParsingError.not_indexed
          "There are many numbers in the input, expected operator") :=
  ⟨rfl, by decide, TokenNew_num _ 2 (by simp [ParsingToken.sizeList]) _ rfl⟩

/-- C6 (amended): whenever the splitting scan of a token sequence of length
at least 2 selects the unary `Inverse` (Negate) at index `i`, `Token::new`
builds only from the tokens strictly after `i` — every token before the
split is silently discarded and the result (success or failure) is that of
the suffix build wrapped in the unary application.  In particular the full
pipeline on "(1+2)-3" succeeds with -3.0, the `(1+2)` group having been
dropped. -/
theorem C6_unary_split :
    (∀ (input : List ParsingToken) (p : Int) (i : Nat), 2 ≤ input.length →
      lowestOp input = some (p, i, Operator.Inverse) →
      Token.new input = Except.map
        (fun right => Token.Operator (Function.from_operator Operator.Inverse) [right])
        (Token.new (input.drop (i + 1)))) ∧
    pipeline ("(1+2)-3".data) = some (-3) := by
  refine ⟨?_, eval_neg_group⟩
  intro input p i hlen hscan
  cases input with
  | nil => simp at hlen
  | cons a rest =>
    cases rest with
    | nil => simp at hlen
    | cons b ts =>
      have hidx : i < (a :: b :: ts).length := lowestOp_lt _ _ _ _ hscan
      have hdrop := sizeList_drop_lt (a :: b :: ts) i hidx
      have hfuel : TokenNewF (ParsingToken.sizeList (a :: b :: ts))
          ((a :: b :: ts).drop (i + 1)) = Token.new ((a :: b :: ts).drop (i + 1)) :=
        (TokenNewF_fuel_irrel _ _ _ hdrop (by omega)).trans rfl
      show TokenNewF (ParsingToken.sizeList (a :: b :: ts) + 1) (a :: b :: ts) = _
      simp only [TokenNewF, hscan]
      rw [hfuel]
      cases h : Token.new ((a :: b :: ts).drop (i + 1)) with
      | error e => rfl
      | ok right => rfl

/-- C6 (witness): on `[5, Negate, 3]` the scan selects the `Inverse` at
index 1 and the build equals the wrapped build of the suffix `[3]`. -/
theorem C6_unary_split_witness :
    2 ≤ ([ParsingToken.Number 5, ParsingToken.Operator Operator.Inverse,
      ParsingToken.Number 3] : List ParsingToken).length ∧
    lowestOp [ParsingToken.Number 5, ParsingToken.Operator Operator.Inverse,
      ParsingToken.Number 3] = some (4, 1, Operator.Inverse) ∧
    Token.new [ParsingToken.Number 5, ParsingToken.Operator Operator.Inverse,
        ParsingToken.Number 3]
      = Except.map
          (fun right => Token.Operator (Function.from_operator Operator.Inverse) [right])
          (Token.new (([ParsingToken.Number 5, ParsingToken.Operator Operator.Inverse,
            ParsingToken.Number 3] : List ParsingToken).drop (1 + 1))) :=
  ⟨by decide, by decide, C6_unary_split.1 _ 4 1 (by decide) (by decide)⟩

end RustCalc
